import Mathlib

/-!
Verification of the blackjack Q-learning program
(src/blackjack_ml_classes_and_functions.py) against its natural-language
specification.  The Python classes are shallowly embedded: pure methods
become Lean functions, mutable objects become explicit state values, the
random number generator is abstracted as explicit oracle arguments, and
Python dictionaries become association lists.
-/

namespace Blackjack

/-- The four suits.  In the source a suit is one of four unicode symbols;
it is cosmetic only and never examined by game logic. -/
inductive Suit where
  | spades
  | hearts
  | diamonds
  | clubs
deriving DecidableEq

/-- The thirteen ranks.  In the source a rank is one of the strings
"2".."10", "J", "Q", "K", "A". -/
inductive Rank where
  | r2
  | r3
  | r4
  | r5
  | r6
  | r7
  | r8
  | r9
  | r10
  | J
  | Q
  | K
  | A
deriving DecidableEq

/-- A playing card, mirroring class Card (rank and suit fields, immutable). -/
structure Card where
  rank : Rank
  suit : Suit
deriving DecidableEq

/-- Models the Python test rank.isalpha(): true exactly on the letter
ranks "J", "Q", "K", "A". -/
def rankIsAlpha (r : Rank) : Bool :=
  match r with
  | Rank.J => true
  | Rank.Q => true
  | Rank.K => true
  | Rank.A => true
  | _ => false

/-- Models int(rank) on the digit ranks "2".."10".  The letter ranks never
reach this conversion in the source (the isalpha branches catch them);
they are mapped to 0 here and that value is never used. -/
def rankDigits (r : Rank) : Nat :=
  match r with
  | Rank.r2 => 2
  | Rank.r3 => 3
  | Rank.r4 => 4
  | Rank.r5 => 5
  | Rank.r6 => 6
  | Rank.r7 => 7
  | Rank.r8 => 8
  | Rank.r9 => 9
  | Rank.r10 => 10
  | _ => 0

/-- The contribution of one card to the running total in
Player.get_hand_sum, before ace adjustment: face cards count 10, an ace
initially counts 11, digit ranks count their numeric value. -/
def cardPoints (r : Rank) : Nat :=
  if rankIsAlpha r = true ∧ r ≠ Rank.A then 10
  else if r = Rank.A then 11
  else rankDigits r

/-- The ace-adjustment loop of Player.get_hand_sum:
while hand_sum > 21 and aces: hand_sum -= 10; aces -= 1. -/
def adjustAces : Nat → Nat → Nat
  | total, 0 => total
  | total, n + 1 => if 21 < total then adjustAces (total - 10) n else total

/-- The pre-adjustment sum accumulated by the for-loop of
Player.get_hand_sum. -/
def rawSum (hand : List Card) : Nat :=
  (hand.map (fun c => cardPoints c.rank)).sum

/-- The number of aces tallied by the for-loop of Player.get_hand_sum. -/
def countAces (hand : List Card) : Nat :=
  hand.countP (fun c => decide (c.rank = Rank.A))

/-- Player.get_hand_sum: sum the per-card contributions, then demote aces
from 11 to 1 while the total exceeds 21. -/
def get_hand_sum (hand : List Card) : Nat :=
  adjustAces (rawSum hand) (countAces hand)

/-- Dealer.should_hit: return self.get_hand_sum() <= 17. -/
def should_hit (hand : List Card) : Bool :=
  get_hand_sum hand ≤ 17

/-- The mutable state of a Player object: the busted flag and the hand,
as initialised by Player.__init__ (busted = False, hand = []). -/
structure PlayerState where
  busted : Bool
  hand : List Card
deriving DecidableEq

/-- Player.is_busted: if self.get_hand_sum() > 21: self.busted = True.
It mutates the stored flag (never clearing it) and returns nothing. -/
def is_busted (p : PlayerState) : PlayerState :=
  if 21 < get_hand_sum p.hand then ⟨true, p.hand⟩ else p

/-- The state abstraction of AI_Player: a pair of the player hand total
and the numeric value of the dealer upcard. -/
abbrev State := Nat × Nat

/-- The two actions of the agent, the strings "hit" and "stand" in the
source. -/
inductive Action where
  | hit
  | stand
deriving DecidableEq

/-- AI_Player.get_state: pair the player total with the upcard value
(10 for a face card, 11 for an ace, the numeric rank otherwise). -/
def get_state (player_sum : Nat) (dealer_card : Card) : State :=
  (player_sum,
   if rankIsAlpha dealer_card.rank = true ∧ dealer_card.rank ≠ Rank.A then 10
   else if dealer_card.rank = Rank.A then 11
   else rankDigits dealer_card.rank)

/-- The Q-table of AI_Player: a Python dict from state to the two-element
list [Q_hit, Q_stand], embedded as an association list whose values are
pairs of rationals. -/
abbrev QTable := List (State × (ℚ × ℚ))

/-- Dictionary read with default, modelling q_table.get(state, [0, 0]). -/
def qget (q : QTable) (s : State) : ℚ × ℚ :=
  match q with
  | [] => (0, 0)
  | (k, v) :: rest => if k = s then v else qget rest s

/-- Dictionary write, modelling q_table[state] = entry (replace the
binding if the key is present, insert it otherwise). -/
def qset (q : QTable) (s : State) (e : ℚ × ℚ) : QTable :=
  match q with
  | [] => [(s, e)]
  | (k, v) :: rest => if k = s then (s, e) :: rest else (k, v) :: qset rest s e

/-- action_index = 0 if action == "hit" else 1. -/
def action_index (a : Action) : Nat :=
  match a with
  | Action.hit => 0
  | Action.stand => 1

/-- Indexing the two-element list [Q_hit, Q_stand] at 0 or 1. -/
def entryGet (e : ℚ × ℚ) (i : Nat) : ℚ :=
  if i = 0 then e.1 else e.2

/-- Assigning index 0 or 1 of the two-element list [Q_hit, Q_stand]. -/
def entrySet (e : ℚ × ℚ) (i : Nat) (v : ℚ) : ℚ × ℚ :=
  if i = 0 then (v, e.2) else (e.1, v)

/-- next_max = max(q_table.get(next_state, [0, 0])) if next_state else 0,
where the terminal sentinel None becomes Option.none. -/
def nextMax (q : QTable) (next_state : Option State) : ℚ :=
  match next_state with
  | some ns => max (qget q ns).1 (qget q ns).2
  | none => 0

/-- AI_Player.update_q_value: one tabular Q-learning update of the entry
for state at the index of the action, creating the entry with defaults
[0, 0] first when absent. -/
def update_q_value (q : QTable) (state : State) (action : Action)
    (reward : ℚ) (next_state : Option State) (alpha gamma : ℚ) : QTable :=
  let i := action_index action
  let old_q := entryGet (qget q state) i
  let new_value := old_q + alpha * (reward + gamma * nextMax q next_state - old_q)
  qset q state (entrySet (qget q state) i new_value)

/-- AI_Player.choose_action, with the two random draws made explicit:
rand models random.random() and randPick models
random.choice(["hit", "stand"]). -/
def choose_action (rand : ℚ) (randPick : Action) (epsilon : ℚ)
    (q : QTable) (s : State) : Action :=
  if rand < epsilon then randPick
  else if (qget q s).1 ≥ (qget q s).2 then Action.hit
  else Action.stand

/-- AI_Player.decay_exploration: epsilon = max(0.1, epsilon * decay_rate). -/
def decay_exploration (epsilon decay_rate : ℚ) : ℚ :=
  max (1 / 10) (epsilon * decay_rate)

/-- The sequence of epsilon values across episodes: one decay_exploration
call after each completed episode. -/
def epsilonSeq (eps0 decay_rate : ℚ) : Nat → ℚ
  | 0 => eps0
  | n + 1 => decay_exploration (epsilonSeq eps0 decay_rate n) decay_rate

/-- The suit list of Deck.__init__ (four unicode symbols in the source). -/
def suitsInit : List Suit :=
  [Suit.spades, Suit.hearts, Suit.diamonds, Suit.clubs]

/-- The rank list of Deck.__init__. -/
def ranksInit : List Rank :=
  [Rank.r2, Rank.r3, Rank.r4, Rank.r5, Rank.r6, Rank.r7, Rank.r8, Rank.r9,
   Rank.r10, Rank.J, Rank.Q, Rank.K, Rank.A]

/-- Deck.__init__: the list comprehension
[Card(rank, suit) for suit in suits for rank in ranks]. -/
def deckInit : List Card :=
  suitsInit.flatMap (fun s => ranksInit.map (fun r => ⟨r, s⟩))

/-- Deck.deal_card: self.cards.pop(0), removing and returning the front
card; popping an empty list fails (in Python an uncaught IndexError, the
empty-deck error condition of the specification), modelled as none. -/
def deal_card (cards : List Card) : Option (Card × List Card) :=
  match cards with
  | [] => none
  | c :: rest => some (c, rest)

/-- n sequential deal_card calls, collecting the dealt cards in order and
failing if any single call fails. -/
def dealMany : Nat → List Card → Option (List Card × List Card)
  | 0, cards => some ([], cards)
  | n + 1, cards =>
    match deal_card cards with
    | none => none
    | some (c, rest) =>
      match dealMany n rest with
      | none => none
      | some (dealt, remaining) => some (c :: dealt, remaining)

/-- Dealing exactly the length of the deck succeeds and returns the whole
deck in order. -/
theorem dealMany_length (l : List Card) :
    dealMany l.length l = some (l, []) := by
  induction l with
  | nil => rfl
  | cons c rest ih =>
    simp only [List.length_cons, dealMany, deal_card, ih]

/-- Dealing one more card than the deck holds fails. -/
theorem dealMany_length_succ (l : List Card) :
    dealMany (l.length + 1) l = none := by
  induction l with
  | nil => rfl
  | cons c rest ih =>
    have step : dealMany (rest.length + 1 + 1) (c :: rest)
        = match dealMany (rest.length + 1) rest with
          | none => none
          | some (dealt, remaining) => some (c :: dealt, remaining) := rfl
    rw [List.length_cons, step, ih]

/-- The possible outcomes of the agent-turn while-loop of
AI_Player.train_module: the agent stood (carrying the Q-table, the agent
hand, the remaining deck and the loop variables state and choice at the
break), the agent busted (after the bust update, with no live state), or
a hit was attempted on an empty deck (which in Python raises). -/
inductive TurnOutcome where
  | ok (q : QTable) (hand : List Card) (deck : List Card) (st : State) (choice : Action)
  | bust (q : QTable) (hand : List Card) (deck : List Card)
  | deckEmpty
deriving DecidableEq

/-- The agent-turn while-loop of AI_Player.train_module.  Each iteration
chooses an action with choose_action (randomness supplied by the oracle
streams rands and randPicks, indexed by the iteration counter k); stand
breaks out; hit draws the front card, then either records the bust
update (reward -1, terminal next state) or the step update (reward 1,
next state from the new total) and loops with the new state. -/
def agentTurn (alpha gamma eps : ℚ) (rands : Nat → ℚ) (randPicks : Nat → Action)
    (up : Card) :
    List Card → Nat → QTable → List Card → State → TurnOutcome
  | [], k, q, hand, st =>
    if choose_action (rands k) (randPicks k) eps q st = Action.stand then
      TurnOutcome.ok q hand [] st (choose_action (rands k) (randPicks k) eps q st)
    else TurnOutcome.deckEmpty
  | c :: rest, k, q, hand, st =>
    if choose_action (rands k) (randPicks k) eps q st = Action.stand then
      TurnOutcome.ok q hand (c :: rest) st
        (choose_action (rands k) (randPicks k) eps q st)
    else
      if 21 < get_hand_sum (hand ++ [c]) then
        TurnOutcome.bust
          (update_q_value q st (choose_action (rands k) (randPicks k) eps q st)
            (-1) none alpha gamma)
          (hand ++ [c]) rest
      else
        agentTurn alpha gamma eps rands randPicks up rest (k + 1)
          (update_q_value q st (choose_action (rands k) (randPicks k) eps q st)
            1 (some (get_state (get_hand_sum (hand ++ [c])) up)) alpha gamma)
          (hand ++ [c])
          (get_state (get_hand_sum (hand ++ [c])) up)

/-- The settlement reward of AI_Player.train_module: -0.5 when the dealer
total exceeds the agent total, 0.5 when they are equal, 1 otherwise. -/
def settleReward (dealerSum agentSum : Nat) : ℚ :=
  if agentSum < dealerSum then -(1 / 2)
  else if dealerSum = agentSum then 1 / 2
  else 1

/-- The state carried out of one iteration of the training loop of
AI_Player.train_module: the Q-table, the decayed epsilon, both final
hands, and the bust flag. -/
structure EpisodeResult where
  q : QTable
  epsilon : ℚ
  agentHand : List Card
  dealerHand : List Card
  busted : Bool

/-- One iteration of the for-loop of AI_Player.train_module, on a deck
given as the post-shuffle card order: the agent draws two cards, the
dealer draws two (the first being the upcard), the agent turn runs, the
non-bust path makes the single settlement update with terminal next
state, the bust path makes no further update, and epsilon decays by the
hard-coded rate 0.9999.  A deck of fewer than four cards, or a hit from
an empty deck, fails (none). -/
def train_episode (alpha gamma eps : ℚ) (rands : Nat → ℚ)
    (randPicks : Nat → Action) (q0 : QTable) (deck : List Card) :
    Option EpisodeResult :=
  match deck with
  | a0 :: a1 :: d0 :: d1 :: rest =>
    match agentTurn alpha gamma eps rands randPicks d0 rest 0 q0 [a0, a1]
        (get_state (get_hand_sum [a0, a1]) d0) with
    | TurnOutcome.deckEmpty => none
    | TurnOutcome.bust qb hb _ =>
      some ⟨qb, decay_exploration eps (9999 / 10000), hb, [d0, d1], true⟩
    | TurnOutcome.ok qt ht _ st ch =>
      some ⟨update_q_value qt st ch
              (settleReward (get_hand_sum [d0, d1]) (get_hand_sum ht))
              none alpha gamma,
            decay_exploration eps (9999 / 10000), ht, [d0, d1], false⟩
  | _ => none

/- Concrete cards used in witnesses and counterexamples. -/

def c2s : Card := ⟨Rank.r2, Suit.spades⟩

def c3s : Card := ⟨Rank.r3, Suit.spades⟩

def c5s : Card := ⟨Rank.r5, Suit.spades⟩

def c7s : Card := ⟨Rank.r7, Suit.spades⟩

def c9s : Card := ⟨Rank.r9, Suit.spades⟩

def c9h : Card := ⟨Rank.r9, Suit.hearts⟩

def cQs : Card := ⟨Rank.Q, Suit.spades⟩

def cKs : Card := ⟨Rank.K, Suit.spades⟩

def cAs : Card := ⟨Rank.A, Suit.spades⟩

/- Helper lemmas about the ace-adjustment loop. -/

/-- The adjustment loop removes at most 10 per available ace. -/
theorem le_adjustAces (aces : Nat) :
    ∀ total : Nat, total - 10 * aces ≤ adjustAces total aces := by
  induction aces with
  | zero =>
    intro total
    simp [adjustAces]
  | succ n ih =>
    intro total
    by_cases h : 21 < total
    · have h2 := ih (total - 10)
      simp only [adjustAces, if_pos h]
      omega
    · simp only [adjustAces, if_neg h]
      omega

/-- If the adjusted total still exceeds 21 then every ace was demoted:
the result is the raw total minus 10 per ace. -/
theorem adjustAces_of_gt (aces : Nat) :
    ∀ total : Nat, 21 < adjustAces total aces →
      adjustAces total aces = total - 10 * aces := by
  induction aces with
  | zero =>
    intro total _
    simp [adjustAces]
  | succ n ih =>
    intro total h
    by_cases hb : 21 < total
    · simp only [adjustAces, if_pos hb] at h ⊢
      have h3 := ih (total - 10) h
      omega
    · simp only [adjustAces, if_neg hb] at h
      omega

/-- Every rank contributes at least 2 points, and an ace contributes 11. -/
theorem cardPoints_lower (r : Rank) :
    2 ≤ cardPoints r ∧ (r = Rank.A → cardPoints r = 11) := by
  cases r <;> simp [cardPoints, rankIsAlpha, rankDigits]

/-- Claim C1 (counterexample): on the concrete hand K spades, 7 spades
(total 17) the drawing predicate returns true, so it is not equivalent to
the total being at most 16 as the claim states. -/
theorem should_hit_le16_counterexample :
    ¬ (should_hit [cKs, c7s] = true ↔ get_hand_sum [cKs, c7s] ≤ 16) := by
  decide

/-- Claim C1 (amended): Dealer.should_hit returns true if and only if the
hand total is at most 17, so the dealer draws while the total is 17 or
less and stands on every total of 18 or more, with no special case for
soft 17. -/
theorem should_hit_iff_le17 (hand : List Card) :
    should_hit hand = true ↔ get_hand_sum hand ≤ 17 := by
  simp [should_hit]

/-- Claim C6: the hand evaluator get_hand_sum is a pure function of the
multiset of ranks: any two hands that are permutations of each other
(including any interleaving of aces with other cards) evaluate to the
same total. -/
theorem get_hand_sum_perm_invariant (hand1 hand2 : List Card)
    (hp : hand1.Perm hand2) : get_hand_sum hand1 = get_hand_sum hand2 := by
  unfold get_hand_sum
  have hs : rawSum hand1 = rawSum hand2 := by
    unfold rawSum
    exact (hp.map (fun c => cardPoints c.rank)).sum_eq
  have hc : countAces hand1 = countAces hand2 := by
    unfold countAces
    exact hp.countP_eq _
  rw [hs, hc]

/-- Claim C6 (witness): the two orderings of the hand ace, nine give the
same total. -/
theorem get_hand_sum_perm_invariant_witness :
    ([cAs, c9h].Perm [c9h, cAs]) ∧
      get_hand_sum [cAs, c9h] = get_hand_sum [c9h, cAs] :=
  ⟨List.Perm.swap c9h cAs [],
   get_hand_sum_perm_invariant [cAs, c9h] [c9h, cAs] (List.Perm.swap c9h cAs [])⟩

/-- Claim C10: busting is irreversible: a hand whose total exceeds 21
still exceeds 21 after appending any further card, even though a
non-busted soft hand can strictly decrease in total when a card is
appended (the hand ace, nine totals 20 and becomes 15 after drawing 5). -/
theorem bust_is_sticky (hand : List Card) (c : Card)
    (hbust : 21 < get_hand_sum hand) :
    21 < get_hand_sum (hand ++ [c]) ∧
      get_hand_sum [cAs, c9s] = 20 ∧
      get_hand_sum [cAs, c9s, c5s] = 15 := by
  refine ⟨?_, by decide, by decide⟩
  have h1 : adjustAces (rawSum hand) (countAces hand)
      = rawSum hand - 10 * countAces hand :=
    adjustAces_of_gt (countAces hand) (rawSum hand) hbust
  have h2 : 10 * countAces hand + 22 ≤ rawSum hand := by
    unfold get_hand_sum at hbust
    omega
  have hraw : rawSum (hand ++ [c]) = rawSum hand + cardPoints c.rank := by
    simp [rawSum]
  have hlow := le_adjustAces (countAces (hand ++ [c])) (rawSum (hand ++ [c]))
  have hpts := cardPoints_lower c.rank
  unfold get_hand_sum
  by_cases hA : c.rank = Rank.A
  · have h11 : cardPoints c.rank = 11 := hpts.2 hA
    have hace : countAces (hand ++ [c]) = countAces hand + 1 := by
      simp [countAces, List.countP_append, List.countP_cons, hA]
    rw [hraw, h11, hace] at hlow ⊢
    omega
  · have hace : countAces (hand ++ [c]) = countAces hand := by
      simp [countAces, List.countP_append, List.countP_cons, hA]
    have h2le : 2 ≤ cardPoints c.rank := hpts.1
    rw [hraw, hace] at hlow ⊢
    omega

/-- Claim C10 (witness): the busted hand K, Q, 5 (total 25) stays busted
after drawing an ace. -/
theorem bust_is_sticky_witness :
    21 < get_hand_sum [cKs, cQs, c5s] ∧
      21 < get_hand_sum ([cKs, cQs, c5s] ++ [cAs]) :=
  ⟨by decide, (bust_is_sticky [cKs, cQs, c5s] cAs (by decide)).1⟩

/- Helper lemmas about the association-list dictionary. -/

/-- Reading back the key just written returns the written entry. -/
theorem qget_qset_same (q : QTable) (s : State) (e : ℚ × ℚ) :
    qget (qset q s e) s = e := by
  induction q with
  | nil => simp [qget, qset]
  | cons kv rest ih =>
    by_cases h : kv.1 = s
    · simp [qset, qget, h]
    · simp only [qset, qget]
      rw [if_neg h]
      simp only [qget]
      rw [if_neg h]
      exact ih

/-- Writing one key leaves every other key unchanged. -/
theorem qget_qset_other (q : QTable) (s s2 : State) (e : ℚ × ℚ)
    (hne : s2 ≠ s) : qget (qset q s e) s2 = qget q s2 := by
  induction q with
  | nil =>
    simp only [qset, qget]
    rw [if_neg (fun h => hne h.symm)]
  | cons kv rest ih =>
    by_cases h : kv.1 = s
    · simp only [qset]
      rw [if_pos h]
      simp only [qget]
      have hk : kv.1 ≠ s2 := by
        rw [h]
        exact fun h2 => hne h2.symm
      rw [if_neg (fun h2 => hne h2.symm), if_neg hk]
    · simp only [qset]
      rw [if_neg h]
      simp only [qget]
      by_cases h2 : kv.1 = s2
      · rw [if_pos h2, if_pos h2]
      · rw [if_neg h2, if_neg h2]
        exact ih

/-- Reading the index just assigned returns the assigned value. -/
theorem entryGet_entrySet (e : ℚ × ℚ) (i : Nat) (v : ℚ) :
    entryGet (entrySet e i v) i = v := by
  by_cases h : i = 0 <;> simp [entryGet, entrySet, h]

/-- Claim C4: update_q_value performs the one-step tabular Q-learning
update Q[state][action] + alpha * (reward + gamma * next_max -
Q[state][action]) at the action index, where next_max is the maximum of
the (defaulted) entry of a non-terminal next state and 0 for the terminal
sentinel; other states are untouched; and on an empty table the single
update of state (12, 6), action hit, reward 1, next state (18, 6) yields
Q[(12, 6)][hit] = alpha. -/
theorem update_q_value_formula (q : QTable) (s : State) (a : Action)
    (r : ℚ) (ns : Option State) (alpha gamma : ℚ) :
    entryGet (qget (update_q_value q s a r ns alpha gamma) s) (action_index a)
        = entryGet (qget q s) (action_index a)
          + alpha * (r + gamma * nextMax q ns
              - entryGet (qget q s) (action_index a)) ∧
      (∀ t : State, nextMax q (some t) = max (qget q t).1 (qget q t).2) ∧
      nextMax q none = 0 ∧
      (∀ s2 : State, s2 ≠ s →
        qget (update_q_value q s a r ns alpha gamma) s2 = qget q s2) ∧
      (∀ a2 g2 : ℚ,
        entryGet (qget (update_q_value [] (12, 6) Action.hit 1
          (some (18, 6)) a2 g2) (12, 6)) (action_index Action.hit) = a2) := by
  refine ⟨?_, fun t => rfl, rfl, ?_, ?_⟩
  · unfold update_q_value
    rw [qget_qset_same, entryGet_entrySet]
  · intro s2 hne
    unfold update_q_value
    exact qget_qset_other q s s2 _ hne
  · intro a2 g2
    unfold update_q_value
    rw [qget_qset_same, entryGet_entrySet]
    simp only [qget, nextMax, entryGet, action_index]
    norm_num

/-- Claim C4 (witness): a state different from the updated one keeps its
entry, at the concrete instance of the claim. -/
theorem update_q_value_formula_witness :
    ((5, 5) : State) ≠ ((12, 6) : State) ∧
      qget (update_q_value [] (12, 6) Action.hit 1 (some (18, 6))
        (3 / 10) (19 / 20)) (5, 5) = qget [] (5, 5) :=
  ⟨by decide,
   (update_q_value_formula [] (12, 6) Action.hit 1 (some (18, 6))
     (3 / 10) (19 / 20)).2.2.2.1 (5, 5) (by decide)⟩

/-- Claim C5: for every decay rate in (0, 1], decay_exploration replaces
epsilon by max(0.1, epsilon * decay_rate), and the resulting sequence of
epsilon values across episodes (starting at or above the floor, as the
default 1.0 does) is monotonically non-increasing and never falls below
the floor 0.1. -/
theorem decay_exploration_monotone (eps0 dr : ℚ) (hdr0 : 0 < dr)
    (hdr1 : dr ≤ 1) (hfloor : 1 / 10 ≤ eps0) :
    (∀ eps : ℚ, decay_exploration eps dr = max (1 / 10) (eps * dr)) ∧
      (∀ n : Nat, epsilonSeq eps0 dr (n + 1)
        = max (1 / 10) (epsilonSeq eps0 dr n * dr)) ∧
      (∀ n : Nat, 1 / 10 ≤ epsilonSeq eps0 dr n) ∧
      (∀ n : Nat, epsilonSeq eps0 dr (n + 1) ≤ epsilonSeq eps0 dr n) := by
  have hge : ∀ n : Nat, 1 / 10 ≤ epsilonSeq eps0 dr n := by
    intro n
    induction n with
    | zero => exact hfloor
    | succ m ih => exact le_max_left _ _
  refine ⟨fun eps => rfl, fun n => rfl, hge, ?_⟩
  intro n
  have hpos : (0 : ℚ) ≤ epsilonSeq eps0 dr n :=
    le_trans (by norm_num) (hge n)
  have hmul : epsilonSeq eps0 dr n * dr ≤ epsilonSeq eps0 dr n := by
    calc epsilonSeq eps0 dr n * dr
        ≤ epsilonSeq eps0 dr n * 1 := by
          exact mul_le_mul_of_nonneg_left hdr1 hpos
      _ = epsilonSeq eps0 dr n := mul_one _
  exact max_le (hge n) hmul

/-- Claim C5 (witness): at the source values eps0 = 1.0 and decay rate
0.9999, the first decayed value is below the start and above the floor. -/
theorem decay_exploration_monotone_witness :
    (0 : ℚ) < 9999 / 10000 ∧
      epsilonSeq 1 (9999 / 10000) 1 ≤ epsilonSeq 1 (9999 / 10000) 0 ∧
      1 / 10 ≤ epsilonSeq 1 (9999 / 10000) 1 :=
  ⟨by norm_num,
   (decay_exploration_monotone 1 (9999 / 10000) (by norm_num) (by norm_num)
     (by norm_num)).2.2.2 0,
   (decay_exploration_monotone 1 (9999 / 10000) (by norm_num) (by norm_num)
     (by norm_num)).2.2.1 1⟩

/-- Claim C8 (counterexample): between a hit and the next is_busted call
the stored flag can read false while the hand K, Q, 5 totals 25, and an
externally set flag survives is_busted on a non-busted hand, so bust
status is not a derived predicate equivalent to the total exceeding 21. -/
theorem is_busted_drift_counterexample :
    (PlayerState.busted ⟨false, [cKs, cQs, c5s]⟩ = false ∧
      21 < get_hand_sum [cKs, cQs, c5s]) ∧
      (is_busted ⟨true, []⟩).busted = true ∧
      get_hand_sum ([] : List Card) ≤ 21 := by
  decide

/-- Claim C8 (amended): is_busted is a mutator of the stored flag, not a
derived predicate: it sets busted to true when the hand total exceeds 21
and leaves the flag unchanged otherwise (never clearing it), so after a
call the flag reads old_flag OR total > 21, and the flag is independently
settable state that can drift out of sync with the hand between calls. -/
theorem is_busted_updates_flag (p : PlayerState) :
    (is_busted p).busted = (p.busted || decide (21 < get_hand_sum p.hand)) ∧
      (is_busted p).hand = p.hand := by
  by_cases h : 21 < get_hand_sum p.hand
  · simp [is_busted, h]
  · simp [is_busted, h]

/-- Claim C9: whenever choose_action takes the exploitation branch (the
random draw is not below epsilon, hence always when epsilon = 0), it
returns hit exactly when Q[state][hit] is at least Q[state][stand] (an
absent entry reading [0, 0]) and stand exactly otherwise; in particular
on a defaulted entry, as with an empty table, it deterministically
returns hit for every state. -/
theorem choose_action_exploit_spec (rand eps : ℚ) (randPick : Action)
    (q : QTable) (s : State) (h : ¬ rand < eps) :
    (choose_action rand randPick eps q s = Action.hit
        ↔ (qget q s).2 ≤ (qget q s).1) ∧
      (choose_action rand randPick eps q s = Action.stand
        ↔ (qget q s).1 < (qget q s).2) ∧
      (qget q s = (0, 0) → choose_action rand randPick eps q s = Action.hit) := by
  unfold choose_action
  rw [if_neg h]
  by_cases hq : (qget q s).1 ≥ (qget q s).2
  · rw [if_pos hq]
    refine ⟨⟨fun _ => hq, fun _ => rfl⟩, ⟨fun hcontra => ?_, fun hlt => ?_⟩, fun _ => rfl⟩
    · exact absurd hcontra (by simp)
    · exact absurd hlt (not_lt.mpr hq)
  · rw [if_neg hq]
    refine ⟨⟨fun hcontra => ?_, fun hle => ?_⟩, ⟨fun _ => not_le.mp hq, fun _ => rfl⟩, ?_⟩
    · exact absurd hcontra (by simp)
    · exact absurd hle hq
    · intro hzero
      rw [hzero] at hq
      exact absurd (le_refl (0 : ℚ)) hq

/-- Claim C9 (witness): with epsilon = 0, a random draw of one half and
an empty table, the agent hits at state (21, 10). -/
theorem choose_action_exploit_spec_witness :
    ¬ (1 / 2 : ℚ) < 0 ∧
      choose_action (1 / 2) Action.stand 0 [] (21, 10) = Action.hit :=
  ⟨by norm_num,
   (choose_action_exploit_spec (1 / 2) 0 Action.stand [] (21, 10)
     (by norm_num)).2.2 rfl⟩

/-- Claim C7: a fresh deck holds exactly 52 distinct cards; after any
shuffle (an arbitrary permutation of the fresh deck), 52 sequential
deal_card calls return every one of the 52 canonical rank-suit pairs
exactly once; and a 53rd deal_card call, dealing from the then-empty
deck, fails. -/
theorem deck_deal_all_52 (d : List Card) (hperm : d.Perm deckInit) :
    deckInit.length = 52 ∧ deckInit.Nodup ∧
      dealMany 52 d = some (d, []) ∧
      (∀ c : Card, d.count c = 1) ∧
      dealMany 53 d = none := by
  have hlen : d.length = 52 := by
    rw [hperm.length_eq]
    rfl
  refine ⟨rfl, by decide, ?_, ?_, ?_⟩
  · rw [← hlen]
    exact dealMany_length d
  · intro c
    rw [hperm.count_eq]
    obtain ⟨r, s⟩ := c
    cases r <;> cases s <;> decide
  · have h53 : d.length + 1 = 53 := by rw [hlen]
    rw [← h53]
    exact dealMany_length_succ d

/-- Claim C7 (witness): the identity shuffle of the fresh deck deals all
52 cards and fails on the 53rd call. -/
theorem deck_deal_all_52_witness :
    deckInit.Perm deckInit ∧
      dealMany 52 deckInit = some (deckInit, []) ∧
      dealMany 53 deckInit = none :=
  ⟨List.Perm.refl deckInit,
   (deck_deal_all_52 deckInit (List.Perm.refl deckInit)).2.2.1,
   (deck_deal_all_52 deckInit (List.Perm.refl deckInit)).2.2.2.2⟩

/-- The agent-turn loop only returns an ok outcome at a break, so the
carried loop variable choice is stand. -/
theorem agentTurn_ok_choice (alpha gamma eps : ℚ) (rands : Nat → ℚ)
    (randPicks : Nat → Action) (up : Card) (deck : List Card) :
    ∀ (k : Nat) (q : QTable) (hand : List Card) (st : State) (qt : QTable)
      (ht dk : List Card) (st2 : State) (ch : Action),
      agentTurn alpha gamma eps rands randPicks up deck k q hand st
          = TurnOutcome.ok qt ht dk st2 ch → ch = Action.stand := by
  induction deck with
  | nil =>
    intro k q hand st qt ht dk st2 ch h
    by_cases hc : choose_action (rands k) (randPicks k) eps q st = Action.stand
    · simp only [agentTurn] at h
      rw [if_pos hc] at h
      cases h
      exact hc
    · simp only [agentTurn] at h
      rw [if_neg hc] at h
      exact TurnOutcome.noConfusion h
  | cons c rest ih =>
    intro k q hand st qt ht dk st2 ch h
    by_cases hc : choose_action (rands k) (randPicks k) eps q st = Action.stand
    · simp only [agentTurn] at h
      rw [if_pos hc] at h
      cases h
      exact hc
    · simp only [agentTurn] at h
      rw [if_neg hc] at h
      by_cases hb : 21 < get_hand_sum (hand ++ [c])
      · rw [if_pos hb] at h
        exact TurnOutcome.noConfusion h
      · rw [if_neg hb] at h
        exact ih (k + 1) _ _ _ qt ht dk st2 ch h

/-- Claim C3: in every completed training episode in which the agent does
not bust, the final Q-table is obtained from the Q-table at the end of
the agent turn by exactly one settlement update with terminal next state
(whose next_max is 0), with reward -0.5 when the dealer total exceeds
the agent total, 0.5 on equality and 1 otherwise, applied to the last
state of the agent turn with the action stand, which is its last chosen
action; no settlement update occurs on the bust path; and when the very
first chosen action is stand the settlement update is applied against
the stand action at the initial state on the initial Q-table. -/
theorem settlement_update_once (alpha gamma eps : ℚ) (rands : Nat → ℚ)
    (randPicks : Nat → Action) (q0 : QTable) (a0 a1 d0 d1 : Card)
    (rest : List Card) :
    (∀ (qt : QTable) (ht dk : List Card) (st : State) (ch : Action),
      agentTurn alpha gamma eps rands randPicks d0 rest 0 q0 [a0, a1]
          (get_state (get_hand_sum [a0, a1]) d0) = TurnOutcome.ok qt ht dk st ch →
      ch = Action.stand ∧
        train_episode alpha gamma eps rands randPicks q0
            (a0 :: a1 :: d0 :: d1 :: rest)
          = some ⟨update_q_value qt st ch
                    (settleReward (get_hand_sum [d0, d1]) (get_hand_sum ht))
                    none alpha gamma,
                  decay_exploration eps (9999 / 10000), ht, [d0, d1], false⟩) ∧
      (∀ (qb : QTable) (hb dk : List Card),
        agentTurn alpha gamma eps rands randPicks d0 rest 0 q0 [a0, a1]
            (get_state (get_hand_sum [a0, a1]) d0) = TurnOutcome.bust qb hb dk →
        train_episode alpha gamma eps rands randPicks q0
            (a0 :: a1 :: d0 :: d1 :: rest)
          = some ⟨qb, decay_exploration eps (9999 / 10000), hb, [d0, d1], true⟩) ∧
      (choose_action (rands 0) (randPicks 0) eps q0
          (get_state (get_hand_sum [a0, a1]) d0) = Action.stand →
        train_episode alpha gamma eps rands randPicks q0
            (a0 :: a1 :: d0 :: d1 :: rest)
          = some ⟨update_q_value q0 (get_state (get_hand_sum [a0, a1]) d0)
                    Action.stand
                    (settleReward (get_hand_sum [d0, d1]) (get_hand_sum [a0, a1]))
                    none alpha gamma,
                  decay_exploration eps (9999 / 10000), [a0, a1], [d0, d1],
                  false⟩) ∧
      (∀ qAny : QTable, nextMax qAny none = 0) := by
  refine ⟨?_, ?_, ?_, fun qAny => rfl⟩
  · intro qt ht dk st ch hok
    refine ⟨agentTurn_ok_choice alpha gamma eps rands randPicks d0 rest 0 q0
      [a0, a1] _ qt ht dk st ch hok, ?_⟩
    simp only [train_episode]
    rw [hok]
  · intro qb hb dk hbust
    simp only [train_episode]
    rw [hbust]
  · intro hch
    simp only [train_episode]
    cases rest with
    | nil =>
      simp only [agentTurn]
      rw [if_pos hch, hch]
    | cons c rs =>
      simp only [agentTurn]
      rw [if_pos hch, hch]

/-- Claim C3 (witness): a concrete stand-first episode: the agent holds
K, Q against dealer 2, 3 with epsilon 1 and an exploration pick of
stand, and the episode is settled by the single terminal update against
stand at the initial state. -/
theorem settlement_update_once_witness :
    choose_action 0 Action.stand 1 [] (get_state (get_hand_sum [cKs, cQs]) c2s)
        = Action.stand ∧
      train_episode (3 / 10) (19 / 20) 1 (fun _ => 0) (fun _ => Action.stand)
          [] (cKs :: cQs :: c2s :: c3s :: [])
        = some ⟨update_q_value [] (get_state (get_hand_sum [cKs, cQs]) c2s)
                  Action.stand
                  (settleReward (get_hand_sum [c2s, c3s]) (get_hand_sum [cKs, cQs]))
                  none (3 / 10) (19 / 20),
                decay_exploration 1 (9999 / 10000), [cKs, cQs], [c2s, c3s],
                false⟩ :=
  ⟨by decide,
   (settlement_update_once (3 / 10) (19 / 20) 1 (fun _ => 0)
     (fun _ => Action.stand) [] cKs cQs c2s c3s []).2.2.1 (by decide)⟩

/-- Claim C2 (refutation on the code): in the concrete completed episode
where the agent stands at once holding K, Q and the dealer holds 2, 3,
the settlement is reached with the dealer hand still the initial two
cards, whose total 5 keeps the drawing predicate true and establishes
neither a bust nor a stand total of 17 or more: train_module performs no
dealer draws at all. -/
theorem train_episode_dealer_never_draws :
    (train_episode (3 / 10) (19 / 20) 1 (fun _ => 0) (fun _ => Action.stand)
        [] [cKs, cQs, c2s, c3s]).map EpisodeResult.dealerHand
        = some [c2s, c3s] ∧
      should_hit [c2s, c3s] = true ∧
      get_hand_sum [c2s, c3s] < 17 ∧
      (train_episode (3 / 10) (19 / 20) 1 (fun _ => 0) (fun _ => Action.stand)
        [] [cKs, cQs, c2s, c3s]).map EpisodeResult.busted = some false := by
  refine ⟨rfl, by decide, by decide, rfl⟩

end Blackjack
